import Mathlib

/-!
Shallow embedding of the prediction pipeline of
`src/services/predict/handler.py` (feature engineering, latest-row
extraction, the importance-weighted explanation heuristic, and the
per-ticker orchestration of `lambda_handler`).

Numeric cells are modelled by `RVal`: an exact rational together with the
IEEE-754 special values `+inf`, `-inf` and `NaN` that the float pipeline
can produce (division by zero, missing data).  Arithmetic on the rational
fragment is exact; the claims under consideration concern the special
values and exact boundary identities, not rounding.

Square roots (used by the rolling standard deviation and the explainer's
z-scores) are irrational in general, so every definition that needs one is
parametrised by a function `sq : ℚ → ℚ` standing for the square root on
the variances actually encountered.  All theorems below hold for an
arbitrary `sq`, because the properties at issue never depend on the
numeric value of a standard deviation appearing in both sides of a
comparison computed the same way.
-/

/-- A float cell: an exact rational, `+inf`, `-inf`, or `NaN`. -/
inductive RVal where
  | fin (q : ℚ)
  | pinf
  | ninf
  | nan
deriving DecidableEq, Repr

namespace RVal

/-- `pandas.isna`: true exactly on `NaN` (infinities are not "missing"). -/
def isNA : RVal → Bool
  | nan => true
  | _ => false

/-- `numpy.isfinite`: true exactly on finite rationals. -/
def isFiniteB : RVal → Bool
  | fin _ => true
  | _ => false

/-- The rational carried by a finite value (junk `0` otherwise). -/
def finPart : RVal → ℚ
  | fin q => q
  | _ => 0

/-- The rational carried by a finite value, as an option. -/
def toQ : RVal → Option ℚ
  | fin q => some q
  | _ => none

def neg : RVal → RVal
  | fin q => fin (-q)
  | pinf => ninf
  | ninf => pinf
  | nan => nan

def add : RVal → RVal → RVal
  | nan, _ => nan
  | _, nan => nan
  | fin a, fin b => fin (a + b)
  | fin _, pinf => pinf
  | pinf, fin _ => pinf
  | fin _, ninf => ninf
  | ninf, fin _ => ninf
  | pinf, pinf => pinf
  | ninf, ninf => ninf
  | pinf, ninf => nan
  | ninf, pinf => nan

def sub (a b : RVal) : RVal := add a (neg b)

def mul : RVal → RVal → RVal
  | nan, _ => nan
  | _, nan => nan
  | fin a, fin b => fin (a * b)
  | fin a, pinf => if 0 < a then pinf else if a < 0 then ninf else nan
  | pinf, fin a => if 0 < a then pinf else if a < 0 then ninf else nan
  | fin a, ninf => if 0 < a then ninf else if a < 0 then pinf else nan
  | ninf, fin a => if 0 < a then ninf else if a < 0 then pinf else nan
  | pinf, pinf => pinf
  | ninf, ninf => pinf
  | pinf, ninf => ninf
  | ninf, pinf => ninf

/-- IEEE-style division: finite/0 gives a signed infinity (or `NaN` for
0/0), finite/inf gives 0, inf/inf gives `NaN`. -/
def div : RVal → RVal → RVal
  | nan, _ => nan
  | _, nan => nan
  | fin a, fin b =>
      if b ≠ 0 then fin (a / b)
      else if 0 < a then pinf
      else if a < 0 then ninf
      else nan
  | fin _, pinf => fin 0
  | fin _, ninf => fin 0
  | pinf, fin b => if 0 ≤ b then pinf else ninf
  | ninf, fin b => if 0 ≤ b then ninf else pinf
  | pinf, pinf => nan
  | pinf, ninf => nan
  | ninf, pinf => nan
  | ninf, ninf => nan

/-- IEEE-style strict comparison: every comparison with `NaN` is false. -/
def ltb : RVal → RVal → Bool
  | fin a, fin b => decide (a < b)
  | fin _, pinf => true
  | ninf, fin _ => true
  | ninf, pinf => true
  | _, _ => false

/-- Square root lifted through the special values via the
parameter `sq`. -/
def sqrtWith (sq : ℚ → ℚ) : RVal → RVal
  | fin q => fin (sq q)
  | pinf => pinf
  | ninf => nan
  | nan => nan

end RVal

/-- Sum of a list of cells (float summation over the exact model). -/
def rsum (l : List RVal) : RVal := l.foldr RVal.add (RVal.fin 0)

/-- The size-`n` trailing window ending at row `t` (pandas
`rolling(n)`), as the values at rows `t+1-n`, …, `t`. -/
def windowVals (xs : List RVal) (t n : Nat) : List RVal :=
  (List.range n).map (fun j => xs.getD (t + 1 - n + j) RVal.nan)

/-- Mean of a full window: `NaN` as soon as the window holds a `NaN`
(pandas `rolling(n).mean()` with the default `min_periods = n`). -/
def windowMean (n : Nat) (w : List RVal) : RVal :=
  if w.any RVal.isNA then RVal.nan else RVal.div (rsum w) (RVal.fin n)

/-- `Series.rolling(n).mean()`. -/
def rollingMean (n : Nat) (xs : List RVal) : List RVal :=
  (List.range xs.length).map
    (fun t => if t + 1 < n then RVal.nan else windowMean n (windowVals xs t n))

/-- Sample mean of a list of rationals. -/
def qMean (l : List ℚ) : ℚ := l.sum / l.length

/-- Sample variance (`ddof = 1`) of a list of rationals. -/
def qVar (l : List ℚ) : ℚ :=
  ((l.map (fun x => (x - qMean l) ^ 2)).sum) / (l.length - 1 : ℚ)

/-- Standard deviation of a full window: `NaN` unless every cell is a
finite rational (pandas `rolling(n).std()`, `ddof = 1`). -/
def windowStd (sq : ℚ → ℚ) (_n : Nat) (w : List RVal) : RVal :=
  if w.all RVal.isFiniteB then RVal.fin (sq (qVar (w.map RVal.finPart)))
  else RVal.nan

/-- `Series.rolling(n).std()`. -/
def rollingStd (sq : ℚ → ℚ) (n : Nat) (xs : List RVal) : List RVal :=
  (List.range xs.length).map
    (fun t => if t + 1 < n then RVal.nan else windowStd sq n (windowVals xs t n))

/-- `Series.diff()`: first row `NaN`, then consecutive differences. -/
def diffList (xs : List RVal) : List RVal :=
  (List.range xs.length).map
    (fun t => if t = 0 then RVal.nan
              else RVal.sub (xs.getD t RVal.nan) (xs.getD (t - 1) RVal.nan))

/-- `Series.pct_change(k)` (no forward fill, the modern default):
`x[t] / x[t-k] - 1`, `NaN` on the first `k` rows. -/
def pctChange (k : Nat) (xs : List RVal) : List RVal :=
  (List.range xs.length).map
    (fun t => if t < k then RVal.nan
              else RVal.sub (RVal.div (xs.getD t RVal.nan) (xs.getD (t - k) RVal.nan))
                            (RVal.fin 1))

example : pctChange 1 [RVal.fin 1, RVal.fin 2] = [RVal.nan, RVal.fin 1] := by
  with_unfolding_all decide

example : rollingMean 2 [RVal.fin 1, RVal.fin 3, RVal.nan]
    = [RVal.nan, RVal.fin 2, RVal.nan] := by
  with_unfolding_all decide

/-- The fixed watchlist of `handler.py`. -/
def WATCHLIST : List String := ["NVDA", "AAPL", "MSFT", "GOOGL", "AMZN", "TSLA"]

/-- Default of the `MIN_HISTORY_DAYS` environment variable. -/
def MIN_HISTORY_DAYS : Nat := 25

/-- One row of the DataFrame returned by `_query_ticker_history`: the raw
bar fields, plus the day of week that `df["date"].dt.dayofweek` computes
from the (already ascending-sorted, duplicate-free) date column.  Bars
are listed in ascending date order, so the `sort_values("date")` in
`add_features_lightweight` is the identity on them. -/
structure Bar where
  open_ : RVal
  high : RVal
  low : RVal
  close : RVal
  volume : RVal
  vwap : RVal
  dow : Nat
deriving DecidableEq, Repr

def closeCol (bars : List Bar) : List RVal := bars.map Bar.close

/-- `delta.where(delta > 0, 0)`: a `NaN` delta compares false and is
replaced by `0`. -/
def gainList (xs : List RVal) : List RVal :=
  (diffList xs).map (fun d => if RVal.ltb (RVal.fin 0) d then d else RVal.fin 0)

/-- `-delta.where(delta < 0, 0)`. -/
def lossList (xs : List RVal) : List RVal :=
  (diffList xs).map (fun d => RVal.neg (if RVal.ltb d (RVal.fin 0) then d else RVal.fin 0))

/-- `rs = gain.rolling(14).mean() / loss.rolling(14).mean()`. -/
def rsList (xs : List RVal) : List RVal :=
  List.zipWith RVal.div (rollingMean 14 (gainList xs)) (rollingMean 14 (lossList xs))

/-- `rsi_14 = 100 - (100 / (1 + rs))`. -/
def rsiList (xs : List RVal) : List RVal :=
  (rsList xs).map
    (fun r => RVal.sub (RVal.fin 100) (RVal.div (RVal.fin 100) (RVal.add (RVal.fin 1) r)))

/-- The numeric columns of `add_features_lightweight(df)`, keyed by
name, in the order the source creates them.  The non-numeric `date` and
`ticker` columns of the frame are not part of the numeric model; the
theorems below therefore consider schemas that do not name them. -/
def addFeaturesLightweight (sq : ℚ → ℚ) (bars : List Bar) : List (String × List RVal) :=
  let close := closeCol bars
  let volume := bars.map Bar.volume
  [("open", bars.map Bar.open_),
   ("high", bars.map Bar.high),
   ("low", bars.map Bar.low),
   ("close", close),
   ("volume", volume),
   ("vwap", bars.map Bar.vwap),
   ("return_1d", pctChange 1 close),
   ("return_5d", pctChange 5 close),
   ("return_10d", pctChange 10 close),
   ("ma_5", rollingMean 5 close),
   ("ma_20", rollingMean 20 close),
   ("price_to_ma5", List.zipWith RVal.div close (rollingMean 5 close)),
   ("price_to_ma20", List.zipWith RVal.div close (rollingMean 20 close)),
   ("volatility_5d", rollingStd sq 5 (pctChange 1 close)),
   ("volatility_10d", rollingStd sq 10 (pctChange 1 close)),
   ("volume_ma_20", rollingMean 20 volume),
   ("volume_ratio", List.zipWith RVal.div volume (rollingMean 20 volume)),
   ("rsi_14", rsiList close),
   ("daily_range",
     List.zipWith RVal.div
       (List.zipWith RVal.sub (bars.map Bar.high) (bars.map Bar.low))
       (bars.map Bar.open_)),
   ("close_to_vwap", List.zipWith RVal.div close (bars.map Bar.vwap)),
   ("day_of_week", bars.map (fun b => RVal.fin b.dow))]

/-- `add_ticker_onehots`: one 0/1 indicator column per watchlist member
(`(df["ticker"] == t).astype(int)`); the frame holds a single ticker. -/
def addTickerOnehots (ticker : String) (n : Nat)
    (tbl : List (String × List RVal)) : List (String × List RVal) :=
  tbl ++ WATCHLIST.map
    (fun w => ("ticker_" ++ w,
               List.replicate n (if ticker = w then RVal.fin 1 else RVal.fin 0)))

/-- The full feature frame `df_feat` of `_prep_latest_features`. -/
def featureTable (sq : ℚ → ℚ) (ticker : String) (bars : List Bar) :
    List (String × List RVal) :=
  addTickerOnehots ticker bars.length (addFeaturesLightweight sq bars)

/-- Value of a column at the chronologically last row (`iloc[-1]`). -/
def lastD (vs : List RVal) : RVal := vs.getLast?.getD RVal.nan

/-- The aligned latest feature vector `X` of `_prep_latest_features`:
the last row, in schema order, with `NaN` inserted for every schema
column absent from the computed table. -/
def prepLatest (sq : ℚ → ℚ) (cols : List String) (ticker : String)
    (bars : List Bar) : List RVal :=
  cols.map (fun c =>
    match List.lookup c (featureTable sq ticker bars) with
    | some vs => lastD vs
    | none => RVal.nan)

/-- `X_latest.isna().any(axis=1).iloc[0]`: the has-missing flag. -/
def hasMissing (X : List RVal) : Bool := X.any RVal.isNA

/-- The `FRIENDLY` label table of the source. -/
def FRIENDLY : List (String × String) :=
  [("return_1d", "short-term momentum"),
   ("return_5d", "5-day momentum"),
   ("return_10d", "10-day momentum"),
   ("price_to_ma5", "price vs 5-day average"),
   ("price_to_ma20", "price vs 20-day average"),
   ("volatility_5d", "recent volatility"),
   ("volatility_10d", "10-day volatility"),
   ("daily_range", "intraday price range"),
   ("volume_ratio", "unusual trading volume"),
   ("rsi_14", "RSI level"),
   ("close_to_vwap", "close vs VWAP"),
   ("day_of_week", "day-of-week pattern")]

/-- The raw bar fields the explainer skips. -/
def RAW_FIELDS : List String := ["open", "high", "low", "close", "volume", "vwap"]

def FALLBACK_WHY : String := "Based on recent price and volume patterns."

/-- `len(df_feat)`: the row count of a frame (every column of a frame
has the same length; the first one is read). -/
def numRows (tbl : List (String × List RVal)) : Nat :=
  match tbl with
  | [] => 0
  | (_, vs) :: _ => vs.length

/-- `series.replace([inf, -inf], nan)`. -/
def cleanSeries (vs : List RVal) : List RVal :=
  vs.map (fun v => if v = RVal.pinf ∨ v = RVal.ninf then RVal.nan else v)

/-- `importances[i] if i < len(importances) else 0.0`. -/
def impAt (imps : List ℚ) (i : Nat) : ℚ :=
  if i < imps.length then imps.getD i 0 else 0

/-- One iteration of the scoring loop of `_why_string`: `none` when the
column is skipped (`continue`), otherwise the `(score, column, z)`
triple appended to `scores`.  Mean and standard deviation are the
skipna statistics of the inf-cleaned series; `z` is 0 when the latest
raw value is not finite. -/
def scoreOf (sq : ℚ → ℚ) (imps : List ℚ) (tbl : List (String × List RVal))
    (i : Nat) (c : String) : Option (ℚ × String × ℚ) :=
  if c.startsWith "ticker_" then none
  else if c ∈ RAW_FIELDS then none
  else
    match List.lookup c tbl with
    | none => none
    | some vs =>
      let series := cleanSeries vs
      if series.all RVal.isNA then none
      else
        let fins := series.filterMap RVal.toQ
        let mu := qMean fins
        let sd := if fins.length < 2 then RVal.nan else RVal.fin (sq (qVar fins))
        if sd = RVal.fin 0 ∨ ¬ (RVal.isFiniteB sd = true) then none
        else
          let z : ℚ :=
            match lastD vs with
            | RVal.fin q => (q - mu) / RVal.finPart sd
            | _ => 0
          some (|z| * impAt imps i, c, z)

/-- Stable descending insertion by score: a later element with an equal
score stays after the earlier ones, as with Python's stable
`scores.sort(reverse=True, key=lambda x: x[0])`. -/
def insertScoreDesc (x : ℚ × String × ℚ) :
    List (ℚ × String × ℚ) → List (ℚ × String × ℚ)
  | [] => [x]
  | y :: ys => if y.1 < x.1 then x :: y :: ys else y :: insertScoreDesc x ys

def sortScoresDesc (l : List (ℚ × String × ℚ)) : List (ℚ × String × ℚ) :=
  l.foldl (fun acc x => insertScoreDesc x acc) []

/-- `f"{direction} {label}"` with `direction = "high" if z >= 0 else
"low"` and the friendly label defaulting to the raw column name. -/
def phraseOf (s : ℚ × String × ℚ) : String :=
  (if 0 ≤ s.2.2 then "high" else "low") ++ " " ++
    ((List.lookup s.2.1 FRIENDLY).getD s.2.1)

/-- `_why_string(model, feature_cols, df_feat)`.  `imps` is
`getattr(model, "feature_importances_", None)`.  An empty score list
reaches the same fallback as the source's early `if not scores` exit. -/
def whyString (sq : ℚ → ℚ) (imps : Option (List ℚ)) (cols : List String)
    (tbl : List (String × List RVal)) : String :=
  match imps with
  | none => FALLBACK_WHY
  | some impL =>
    if numRows tbl < 10 then FALLBACK_WHY
    else
      let scores := cols.enum.filterMap (fun p => scoreOf sq impL tbl p.1 p.2)
      match (sortScoresDesc scores).take 2 with
      | [] => FALLBACK_WHY
      | [p] => "Driven mainly by " ++ phraseOf p ++ "."
      | p :: q :: _ => "Driven mainly by " ++ phraseOf p ++ " and " ++ phraseOf q ++ "."

/-- One entry of the response's `predictions` list. -/
structure Prediction where
  ticker : String
  pred_up : Option Bool
  prob_up : Option ℚ
  why : String
deriving DecidableEq, Repr

/-- The body of the per-ticker loop of `lambda_handler`.  `probOf` is
the externally loaded classifier's `predict_proba(X)[0, 1]`, a fixed
function of the aligned vector; `imps` its optional importance
vector. -/
def processTicker (sq : ℚ → ℚ) (probOf : List RVal → ℚ) (imps : Option (List ℚ))
    (cols : List String) (minHist : Nat) (t : String) (df : List Bar) : Prediction :=
  if df = [] ∨ df.length < minHist then
    { ticker := t, pred_up := none, prob_up := none,
      why := "Not enough recent history yet." }
  else
    let X := prepLatest sq cols t df
    if hasMissing X then
      { ticker := t, pred_up := none, prob_up := none,
        why := "Missing feature values for today." }
    else
      let prob := probOf X
      { ticker := t, pred_up := some (decide ((1 : ℚ)/2 ≤ prob)),
        prob_up := some prob,
        why := whyString sq imps cols (featureTable sq t df) }

/-- The `preds` list assembled by `lambda_handler`'s watchlist loop
(`preds = []`, then one append per ticker).  `hist` is the per-ticker
result of `_query_ticker_history`. -/
def lambdaPreds (sq : ℚ → ℚ) (probOf : List RVal → ℚ) (imps : Option (List ℚ))
    (cols : List String) (minHist : Nat) (hist : String → List Bar) : List Prediction :=
  WATCHLIST.foldl
    (fun preds t => preds ++ [processTicker sq probOf imps cols minHist t (hist t)]) []

/-- The values of a named column (`[]` when the column is absent). -/
def tableCol (tbl : List (String × List RVal)) (c : String) : List RVal :=
  (List.lookup c tbl).getD []

/-- §4.4 of the spec, one candidate column: skip ticker-identity and raw
bar columns; take the column's values across all rows ignoring
non-finite entries; skip when the column is entirely undefined or its
standard deviation is undefined (fewer than two observations) or zero;
otherwise `z = (latest − mean)/std` with a non-finite latest value
treated as `z = 0`, scored `|z| ×` the importance weight. -/
def specCandidateScore (sq : ℚ → ℚ) (imps : List ℚ) (tbl : List (String × List RVal))
    (i : Nat) (c : String) : Option (ℚ × String × ℚ) :=
  if c.startsWith "ticker_" ∨ c ∈ RAW_FIELDS then none
  else
    let vals := tableCol tbl c
    let finite := (vals.filter RVal.isFiniteB).map RVal.finPart
    if finite.length = 0 then none
    else if finite.length < 2 then none
    else
      let mu := qMean finite
      let sd := sq (qVar finite)
      if sd = 0 then none
      else
        let z : ℚ :=
          match lastD vals with
          | RVal.fin q => (q - mu) / sd
          | _ => 0
        some (|z| * impAt imps i, c, z)

/-- The Explainer as §4.4 of the spec words it: rank the candidate
columns by score descending, take the top two, render each as
"<high|low> <friendly label>", join into the "Driven mainly by …"
sentence, with the fallback sentence when importances are unavailable,
history is shorter than 10 rows, or no column produces a usable
score. -/
def whySpec (sq : ℚ → ℚ) (imps : Option (List ℚ)) (cols : List String)
    (tbl : List (String × List RVal)) : String :=
  match imps with
  | none => FALLBACK_WHY
  | some impL =>
    if numRows tbl < 10 then FALLBACK_WHY
    else
      match (sortScoresDesc
              (cols.enum.filterMap (fun p => specCandidateScore sq impL tbl p.1 p.2))).take 2 with
      | [] => FALLBACK_WHY
      | [p] => "Driven mainly by " ++ phraseOf p ++ "."
      | p :: q :: _ => "Driven mainly by " ++ phraseOf p ++ " and " ++ phraseOf q ++ "."

/-- A bar with unexceptional values, for concrete instances. -/
def dummyBar : Bar :=
  { open_ := RVal.fin 1, high := RVal.fin 1, low := RVal.fin 1,
    close := RVal.fin 1, volume := RVal.fin 1, vwap := RVal.fin 1, dow := 0 }

/-- Two bars whose closes are 0 then 1: `return_1d` on the last row is
`(1 - 0)/0 = +inf`, which `isna` does not flag. -/
def cexBars : List Bar :=
  [{ dummyBar with close := RVal.fin 0 }, { dummyBar with close := RVal.fin 1 }]

/-- Fifteen bars with strictly increasing closes 0, 1, …, 14. -/
def wBars : List Bar :=
  (List.range 15).map (fun i => { dummyBar with close := RVal.fin i })

theorem getD_map_range (f : Nat → RVal) (n t : Nat) (d : RVal) (h : t < n) :
    (((List.range n).map f).getD t d) = f t := by
  rw [List.getD_eq_getElem?_getD, List.getElem?_map, List.getElem?_range h]
  rfl

theorem getD_map_of_lt {α β : Type} (f : α → β) (l : List α) (i : Nat) (d : β)
    (d' : α) (h : i < l.length) :
    (l.map f).getD i d = f (l.getD i d') := by
  rw [List.getD_eq_getElem?_getD, List.getElem?_map,
      List.getElem?_eq_getElem h, List.getD_eq_getElem?_getD,
      List.getElem?_eq_getElem h]
  rfl

theorem getD_zipWith (f : RVal → RVal → RVal) (l₁ l₂ : List RVal) (i : Nat)
    (d : RVal) (h₁ : i < l₁.length) (h₂ : i < l₂.length) :
    (List.zipWith f l₁ l₂).getD i d = f (l₁.getD i d) (l₂.getD i d) := by
  induction l₁ generalizing l₂ i with
  | nil => simp at h₁
  | cons x xs ih =>
    cases l₂ with
    | nil => simp at h₂
    | cons y ys =>
      cases i with
      | zero => rfl
      | succ i =>
        simp only [List.zipWith_cons_cons, List.getD_cons_succ]
        exact ih ys i (by simpa using h₁) (by simpa using h₂)

theorem length_diffList (xs : List RVal) : (diffList xs).length = xs.length := by
  simp [diffList]

theorem length_pctChange (k : Nat) (xs : List RVal) :
    (pctChange k xs).length = xs.length := by
  simp [pctChange]

theorem length_rollingMean (n : Nat) (xs : List RVal) :
    (rollingMean n xs).length = xs.length := by
  simp [rollingMean]

theorem length_gainList (xs : List RVal) : (gainList xs).length = xs.length := by
  simp [gainList, length_diffList]

theorem length_lossList (xs : List RVal) : (lossList xs).length = xs.length := by
  simp [lossList, length_diffList]

theorem length_rsList (xs : List RVal) : (rsList xs).length = xs.length := by
  simp [rsList, length_rollingMean, length_gainList, length_lossList]

theorem length_rsiList (xs : List RVal) : (rsiList xs).length = xs.length := by
  simp [rsiList, length_rsList]

theorem lookup_return5d (sq : ℚ → ℚ) (t : String) (bars : List Bar) :
    List.lookup "return_5d" (featureTable sq t bars)
      = some (pctChange 5 (closeCol bars)) := by
  rfl

/-- C8: for an input of fewer than 6 bars, every row of the `return_5d`
column of the computed feature table is undefined (`NaN`). -/
theorem C8_return5d_short_history (sq : ℚ → ℚ) (t : String) (bars : List Bar)
    (h : bars.length < 6) :
    ∀ v ∈ tableCol (featureTable sq t bars) "return_5d", v = RVal.nan := by
  intro v hv
  rw [tableCol, lookup_return5d, Option.getD_some] at hv
  rw [pctChange] at hv
  obtain ⟨j, hj, rfl⟩ := List.mem_map.mp hv
  have hjlt : j < (closeCol bars).length := List.mem_range.mp hj
  have hlen : (closeCol bars).length = bars.length := List.length_map _ _
  have : j < 5 := by omega
  simp [this]

/-- Witness for C8 at five one-point bars. -/
theorem C8_witness :
    (List.replicate 5 dummyBar).length < 6 ∧
      ∀ v ∈ tableCol (featureTable (fun q => q) "AAPL" (List.replicate 5 dummyBar))
          "return_5d", v = RVal.nan :=
  ⟨by decide,
   C8_return5d_short_history (fun q => q) "AAPL" (List.replicate 5 dummyBar) (by decide)⟩

theorem foldl_append_singleton {α β : Type} (f : α → β) (l : List α) (acc : List β) :
    l.foldl (fun preds t => preds ++ [f t]) acc = acc ++ l.map f := by
  induction l generalizing acc with
  | nil => simp
  | cons x xs ih => simp [ih]

theorem lambdaPreds_eq_map (sq : ℚ → ℚ) (probOf : List RVal → ℚ)
    (imps : Option (List ℚ)) (cols : List String) (minHist : Nat)
    (hist : String → List Bar) :
    lambdaPreds sq probOf imps cols minHist hist
      = WATCHLIST.map (fun t => processTicker sq probOf imps cols minHist t (hist t)) := by
  rw [lambdaPreds, foldl_append_singleton]
  rfl

theorem processTicker_ticker (sq : ℚ → ℚ) (probOf : List RVal → ℚ)
    (imps : Option (List ℚ)) (cols : List String) (minHist : Nat)
    (t : String) (df : List Bar) :
    (processTicker sq probOf imps cols minHist t df).ticker = t := by
  rw [processTicker]
  split
  · rfl
  · dsimp only
    split
    · rfl
    · rfl

/-- C4: the response always carries exactly one prediction entry per
watchlist ticker, in watchlist order, and the entry at position `i` is a
function of that ticker's own history alone — so an insufficient-data or
missing-feature outcome for one ticker cannot suppress or disturb the
entries of the others. -/
theorem C4_one_entry_per_ticker (sq : ℚ → ℚ) (probOf : List RVal → ℚ)
    (imps : Option (List ℚ)) (cols : List String) (minHist : Nat)
    (hist : String → List Bar) :
    (lambdaPreds sq probOf imps cols minHist hist).map Prediction.ticker = WATCHLIST ∧
    ∀ (i : Nat) (t : String), WATCHLIST[i]? = some t →
      (lambdaPreds sq probOf imps cols minHist hist)[i]?
        = some (processTicker sq probOf imps cols minHist t (hist t)) := by
  constructor
  · rw [lambdaPreds_eq_map, List.map_map]
    have h : ∀ t ∈ WATCHLIST,
        (Prediction.ticker ∘ fun t => processTicker sq probOf imps cols minHist t (hist t)) t
          = id t := by
      intro t _
      exact processTicker_ticker sq probOf imps cols minHist t (hist t)
    rw [List.map_congr_left h, List.map_id]
  · intro i t ht
    rw [lambdaPreds_eq_map, List.getElem?_map, ht]
    rfl

/-- Witness for C4 at a concrete configuration and the first ticker. -/
theorem C4_witness :
    (lambdaPreds (fun q => q) (fun _ => 1/2) none [] 25 (fun _ => [])).map
        Prediction.ticker = WATCHLIST ∧
    (lambdaPreds (fun q => q) (fun _ => 1/2) none [] 25 (fun _ => []))[0]?
      = some (processTicker (fun q => q) (fun _ => 1/2) none [] 25 "NVDA" []) := by
  refine ⟨(C4_one_entry_per_ticker _ _ _ _ _ _).1, ?_⟩
  exact (C4_one_entry_per_ticker (fun q => q) (fun _ => 1/2) none [] 25 (fun _ => [])).2
    0 "NVDA" rfl

/-- C5: a ticker whose fetched history has exactly 24 bars (one below
the default minimum of 25) yields the structured null entry with the
exact "Not enough recent history yet." rationale, independently of the
classifier, the schema and the importances — none of them are
consulted. -/
theorem C5_insufficient_history_null (sq : ℚ → ℚ) (probOf : List RVal → ℚ)
    (imps : Option (List ℚ)) (cols : List String) (hist : String → List Bar)
    (h : (hist "AAPL").length = 24) :
    (lambdaPreds sq probOf imps cols MIN_HISTORY_DAYS hist)[1]?
      = some { ticker := "AAPL", pred_up := none, prob_up := none,
               why := "Not enough recent history yet." } := by
  rw [lambdaPreds_eq_map, List.getElem?_map]
  have h1 : WATCHLIST[1]? = some "AAPL" := rfl
  rw [h1]
  simp only [Option.map_some']
  congr 1
  rw [processTicker, if_pos]
  exact Or.inr (by rw [h, MIN_HISTORY_DAYS]; omega)

/-- Witness for C5: 24 dummy bars for AAPL, empty histories elsewhere. -/
theorem C5_witness :
    (lambdaPreds (fun q => q) (fun _ => 1/2) none []
        MIN_HISTORY_DAYS
        (fun t => if t = "AAPL" then List.replicate 24 dummyBar else []))[1]?
      = some { ticker := "AAPL", pred_up := none, prob_up := none,
               why := "Not enough recent history yet." } :=
  C5_insufficient_history_null (fun q => q) (fun _ => 1/2) none []
    (fun t => if t = "AAPL" then List.replicate 24 dummyBar else []) (by decide)

/-- C3: whenever a ticker's fetched history is shorter than the minimum
threshold, or its aligned latest feature vector has the has-missing
flag set, that ticker's response entry is the same for every classifier
probability function — the probability-estimation operation is never
consulted for it. -/
theorem C3_classifier_not_invoked (sq : ℚ → ℚ) (imps : Option (List ℚ))
    (cols : List String) (minHist : Nat) (hist : String → List Bar)
    (i : Nat) (t : String) (ht : WATCHLIST[i]? = some t)
    (h : (hist t).length < minHist ∨
         hasMissing (prepLatest sq cols t (hist t)) = true)
    (probOf probOf' : List RVal → ℚ) :
    (lambdaPreds sq probOf imps cols minHist hist)[i]?
      = (lambdaPreds sq probOf' imps cols minHist hist)[i]? := by
  rw [lambdaPreds_eq_map, lambdaPreds_eq_map, List.getElem?_map, List.getElem?_map, ht]
  simp only [Option.map_some']
  congr 1
  rw [processTicker, processTicker]
  rcases h with h | h
  · rw [if_pos (Or.inr h), if_pos (Or.inr h)]
  · by_cases he : hist t = [] ∨ (hist t).length < minHist
    · rw [if_pos he, if_pos he]
    · rw [if_neg he, if_neg he]
      dsimp only
      rw [if_pos h, if_pos h]

/-- Witness for C3: the empty NVDA history is below the threshold. -/
theorem C3_witness :
    (lambdaPreds (fun q => q) (fun _ => 0) none [] 25 (fun _ => []))[0]?
      = (lambdaPreds (fun q => q) (fun _ => 1) none [] 25 (fun _ => []))[0]? :=
  C3_classifier_not_invoked (fun q => q) none [] 25 (fun _ => []) 0 "NVDA" rfl
    (Or.inl (by decide)) (fun _ => 0) (fun _ => 1)

/-- C9: the whole per-ticker pipeline is a pure function of the schema,
the classifier and the histories: two runs on identical inputs produce
identical `prob_up` values for every ticker. -/
theorem C9_determinism (sq : ℚ → ℚ) (probOf : List RVal → ℚ)
    (imps : Option (List ℚ)) (cols cols' : List String) (minHist : Nat)
    (hist hist' : String → List Bar)
    (hc : cols = cols') (hh : ∀ t, hist t = hist' t) :
    (lambdaPreds sq probOf imps cols minHist hist).map Prediction.prob_up
      = (lambdaPreds sq probOf imps cols' minHist hist').map Prediction.prob_up := by
  rw [hc, funext hh]

/-- Witness for C9 at a concrete configuration. -/
theorem C9_witness :
    (lambdaPreds (fun q => q) (fun _ => 1/2) none ["close"] 25
        (fun _ => [])).map Prediction.prob_up
      = (lambdaPreds (fun q => q) (fun _ => 1/2) none ["close"] 25
        (fun _ => [])).map Prediction.prob_up :=
  C9_determinism (fun q => q) (fun _ => 1/2) none ["close"] ["close"] 25
    (fun _ => []) (fun _ => []) rfl (fun _ => rfl)

theorem any_map_general {α β : Type} (f : α → β) (l : List α) (p : β → Bool) :
    (l.map f).any p = l.any (fun a => p (f a)) := by
  induction l with
  | nil => rfl
  | cons x xs ih => simp [ih]

theorem impAt_append_zeros (imps : List ℚ) (k i : Nat) :
    impAt (imps ++ List.replicate k 0) i = impAt imps i := by
  unfold impAt
  simp only [List.length_append, List.length_replicate]
  rcases lt_or_ge i imps.length with h | h
  · rw [if_pos (show i < imps.length + k by omega), if_pos h,
        List.getD_append _ _ _ _ h]
  · rw [if_neg (show ¬ i < imps.length by omega)]
    rcases lt_or_ge i (imps.length + k) with h2 | h2
    · rw [if_pos (show i < imps.length + k by omega),
          List.getD_append_right _ _ _ _ h, List.getD_eq_getElem?_getD,
          List.getElem?_replicate]
      split
      · rfl
      · rfl
    · rw [if_neg (show ¬ i < imps.length + k by omega)]

theorem scoreOf_imps_ext (sq : ℚ → ℚ) (imps imps' : List ℚ)
    (h : ∀ i, impAt imps i = impAt imps' i)
    (tbl : List (String × List RVal)) (i : Nat) (c : String) :
    scoreOf sq imps tbl i c = scoreOf sq imps' tbl i c := by
  unfold scoreOf
  rw [h i]

/-- C10: a schema column indexed past the end of the importance vector
is scored with importance weight 0, so the rationale is insensitive to
padding the vector with zeros — the computation is total over
importance vectors shorter than the schema. -/
theorem C10_importance_padding (sq : ℚ → ℚ) (imps : List ℚ) (k : Nat)
    (cols : List String) (tbl : List (String × List RVal)) :
    (∀ i : Nat, imps.length ≤ i → impAt imps i = 0) ∧
    whyString sq (some (imps ++ List.replicate k 0)) cols tbl
      = whyString sq (some imps) cols tbl := by
  constructor
  · intro i hi
    rw [impAt, if_neg (by omega)]
  · have hfun :
        (fun p : Nat × String => scoreOf sq (imps ++ List.replicate k 0) tbl p.1 p.2)
          = (fun p : Nat × String => scoreOf sq imps tbl p.1 p.2) :=
      funext fun p =>
        scoreOf_imps_ext sq _ _ (fun i => impAt_append_zeros imps k i) tbl p.1 p.2
    simp only [whyString]
    rw [hfun]

/-- Witness for C10: an importance vector shorter than the schema. -/
theorem C10_witness :
    impAt ([1/2] : List ℚ) 3 = 0 ∧
    whyString (fun q => q) (some (([1/2] : List ℚ) ++ List.replicate 2 0))
        ["return_1d", "rsi_14"] []
      = whyString (fun q => q) (some ([1/2] : List ℚ)) ["return_1d", "rsi_14"] [] :=
  ⟨(C10_importance_padding (fun q => q) [1/2] 2 ["return_1d", "rsi_14"] []).1 3
      (by decide),
   (C10_importance_padding (fun q => q) [1/2] 2 ["return_1d", "rsi_14"] []).2⟩

/-- C6: the Explainer answers the exact fallback sentence whenever the
classifier exposes no importance vector, or the feature table has fewer
than 10 rows, or every schema column's scoring pass is skipped (in
particular when each candidate is entirely undefined or has
zero/non-finite standard deviation). -/
theorem C6_explainer_fallback (sq : ℚ → ℚ) (imps : Option (List ℚ))
    (cols : List String) (tbl : List (String × List RVal))
    (h : imps = none ∨ numRows tbl < 10 ∨
         ∀ impL, imps = some impL →
           ∀ p ∈ cols.enum, scoreOf sq impL tbl p.1 p.2 = none) :
    whyString sq imps cols tbl = FALLBACK_WHY := by
  rcases imps with _ | impL
  · rfl
  · rcases h with h | h | h
    · exact absurd h (by simp)
    · simp only [whyString]
      rw [if_pos h]
    · have hsc : cols.enum.filterMap (fun p => scoreOf sq impL tbl p.1 p.2) = [] :=
        List.filterMap_eq_nil_iff.mpr (h impL rfl)
      simp only [whyString]
      rw [hsc]
      split
      · rfl
      · rfl

/-- Witness for C6: importances absent. -/
theorem C6_witness :
    whyString (fun q => q) none ["rsi_14"] [] = FALLBACK_WHY :=
  C6_explainer_fallback (fun q => q) none ["rsi_14"] [] (Or.inl rfl)

/-- C1 as stated is refuted: with closes 0 then 1, the latest row's
`return_1d` is `(1 − 0)/0 = +inf`; `isna` does not flag it, so the
has-missing flag is false although not every schema column has a finite
value in the latest row. -/
theorem C1_counterexample :
    hasMissing (prepLatest (fun q => q) ["return_1d"] "AAPL" cexBars) = false ∧
    ¬ (∀ v ∈ prepLatest (fun q => q) ["return_1d"] "AAPL" cexBars,
         RVal.isFiniteB v = true) := by
  with_unfolding_all decide

/-- C1 amended: the extraction flags a row as missing whenever a schema
column is absent from the computed table, and the flag is false iff
every schema column is present with a non-`NaN` value (infinities
included) in the chronologically last row. -/
theorem C1_flag_characterization (sq : ℚ → ℚ) (cols : List String) (t : String)
    (bars : List Bar) :
    (∀ c ∈ cols, List.lookup c (featureTable sq t bars) = none →
        hasMissing (prepLatest sq cols t bars) = true) ∧
    (hasMissing (prepLatest sq cols t bars) = false ↔
      ∀ c ∈ cols, ∃ vs, List.lookup c (featureTable sq t bars) = some vs ∧
        RVal.isNA (lastD vs) = false) := by
  constructor
  · intro c hc hnone
    rw [hasMissing, prepLatest, any_map_general, List.any_eq_true]
    refine ⟨c, hc, ?_⟩
    rw [hnone]
    rfl
  · rw [hasMissing, prepLatest, any_map_general, List.any_eq_false]
    constructor
    · intro h c hc
      have hcc := h c hc
      cases hl : List.lookup c (featureTable sq t bars) with
      | none =>
        rw [hl] at hcc
        simp [RVal.isNA] at hcc
      | some vs =>
        refine ⟨vs, rfl, ?_⟩
        rw [hl] at hcc
        simpa using hcc
    · intro h c hc
      obtain ⟨vs, hvs, hna⟩ := h c hc
      rw [hvs]
      simpa using hna

/-- Witness for C1's amended theorem: a column name absent from the
table forces the flag. -/
theorem C1_witness :
    hasMissing (prepLatest (fun q => q) ["bogus"] "AAPL" cexBars) = true :=
  (C1_flag_characterization (fun q => q) ["bogus"] "AAPL" cexBars).1 "bogus"
    (by decide) (by with_unfolding_all rfl)

theorem cleanSeries_filterMap (vs : List RVal) :
    (cleanSeries vs).filterMap RVal.toQ
      = (vs.filter RVal.isFiniteB).map RVal.finPart := by
  induction vs with
  | nil => rfl
  | cons v rest ih =>
    cases v <;>
      simp [cleanSeries, RVal.toQ, RVal.isFiniteB, RVal.finPart, List.filter_cons,
            List.filterMap_cons] at ih ⊢ <;>
      exact ih

theorem cleanSeries_all_iff (vs : List RVal) :
    ((cleanSeries vs).all RVal.isNA = true) ↔
      (vs.filter RVal.isFiniteB).map RVal.finPart = [] := by
  induction vs with
  | nil => simp [cleanSeries]
  | cons v rest ih =>
    cases v with
    | fin q => simp [cleanSeries, List.filter_cons, RVal.isFiniteB, RVal.isNA]
    | pinf => simpa [cleanSeries, List.filter_cons, RVal.isFiniteB, RVal.isNA] using ih
    | ninf => simpa [cleanSeries, List.filter_cons, RVal.isFiniteB, RVal.isNA] using ih
    | nan => simpa [cleanSeries, List.filter_cons, RVal.isFiniteB, RVal.isNA] using ih

theorem scoreOf_eq_spec (sq : ℚ → ℚ) (imps : List ℚ) (tbl : List (String × List RVal))
    (i : Nat) (c : String) :
    scoreOf sq imps tbl i c = specCandidateScore sq imps tbl i c := by
  unfold scoreOf specCandidateScore
  by_cases h1 : c.startsWith "ticker_"
  · rw [if_pos h1, if_pos (Or.inl h1)]
  · by_cases h2 : c ∈ RAW_FIELDS
    · rw [if_neg h1, if_pos h2, if_pos (Or.inr h2)]
    · rw [if_neg h1, if_neg h2, if_neg (by simp [h1, h2])]
      rcases hl : List.lookup c tbl with _ | vs
      · simp [tableCol, hl]
      · simp only [tableCol, hl, Option.getD_some, cleanSeries_filterMap,
                   cleanSeries_all_iff]
        by_cases hA : (vs.filter RVal.isFiniteB).map RVal.finPart = []
        · rw [if_pos hA, if_pos (by rw [hA]; rfl)]
        · rw [if_neg hA,
              if_neg (show ¬ ((vs.filter RVal.isFiniteB).map RVal.finPart).length = 0 by
                simpa [List.length_eq_zero] using hA)]
          by_cases hB : ((vs.filter RVal.isFiniteB).map RVal.finPart).length < 2
          · rw [if_pos hB, if_pos hB, if_pos (by simp [RVal.isFiniteB])]
          · rw [if_neg hB, if_neg hB]
            by_cases hC : sq (qVar ((vs.filter RVal.isFiniteB).map RVal.finPart)) = 0
            · rw [if_pos hC, if_pos (Or.inl (by rw [hC]))]
            · rw [if_neg hC,
                  if_neg (show ¬ (RVal.fin (sq (qVar ((vs.filter RVal.isFiniteB).map
                      RVal.finPart))) = RVal.fin 0 ∨
                    ¬ (RVal.isFiniteB (RVal.fin (sq (qVar ((vs.filter RVal.isFiniteB).map
                      RVal.finPart)))) = true)) by
                    simp [RVal.isFiniteB, hC])]
              rfl

/-- C7: the explanation string the code produces is exactly the §4.4
algorithm — candidates are the schema columns that are neither
ticker-identity nor raw bar fields, each scored `|z| ×` its importance
weight with `z` from the column's historical mean and standard deviation
(non-finite latest value as `z = 0`), ranked by score descending, the
top two rendered "high/low <friendly label>" (falling back to the raw
column name) and joined as "Driven mainly by X." or
"Driven mainly by X and Y.". -/
theorem C7_why_refines_spec (sq : ℚ → ℚ) (imps : Option (List ℚ))
    (cols : List String) (tbl : List (String × List RVal)) :
    whyString sq imps cols tbl = whySpec sq imps cols tbl := by
  rcases imps with _ | impL
  · rfl
  · simp only [whyString, whySpec]
    have hfun : (fun p : Nat × String => scoreOf sq impL tbl p.1 p.2)
        = (fun p : Nat × String => specCandidateScore sq impL tbl p.1 p.2) :=
      funext fun p => scoreOf_eq_spec sq impL tbl p.1 p.2
    rw [hfun]

theorem rsum_pos (w : List RVal) (h : ∀ x ∈ w, ∃ q, x = RVal.fin q ∧ 0 < q) :
    ∃ s, rsum w = RVal.fin s ∧ 0 ≤ s ∧ (w ≠ [] → 0 < s) := by
  induction w with
  | nil => exact ⟨0, rfl, le_refl 0, fun hc => absurd rfl hc⟩
  | cons x xs ih =>
    obtain ⟨q, hx, hq⟩ := h x (List.mem_cons_self x xs)
    obtain ⟨s, hs, hs0, _⟩ := ih (fun y hy => h y (List.mem_cons_of_mem x hy))
    rw [rsum] at hs
    refine ⟨q + s, ?_, by linarith, fun _ => by linarith⟩
    rw [rsum, List.foldr_cons, hx, hs]
    rfl

theorem rsum_zero (w : List RVal) (h : ∀ x ∈ w, x = RVal.fin 0) :
    rsum w = RVal.fin 0 := by
  induction w with
  | nil => rfl
  | cons x xs ih =>
    have ih2 := ih (fun y hy => h y (List.mem_cons_of_mem x hy))
    rw [rsum] at ih2
    rw [rsum, List.foldr_cons, h x (List.mem_cons_self x xs), ih2]
    show RVal.fin (0 + 0) = RVal.fin 0
    norm_num

theorem windowMean_pos (n : Nat) (hn : 0 < n) (w : List RVal) (hne : w ≠ [])
    (h : ∀ x ∈ w, ∃ q, x = RVal.fin q ∧ 0 < q) :
    ∃ g, windowMean n w = RVal.fin g ∧ 0 < g := by
  obtain ⟨s, hs, _, hpos⟩ := rsum_pos w h
  have hna : ¬ (w.any RVal.isNA = true) := by
    rw [List.any_eq_true]
    rintro ⟨x, hx, hbad⟩
    obtain ⟨q, rfl, _⟩ := h x hx
    simp [RVal.isNA] at hbad
  have hcast : ((n : ℚ)) ≠ 0 := Nat.cast_ne_zero.mpr hn.ne'
  refine ⟨s / n, ?_, div_pos (hpos hne) (by positivity)⟩
  rw [windowMean, if_neg hna, hs]
  simp only [RVal.div]
  rw [if_pos hcast]

theorem windowMean_zero (n : Nat) (hn : 0 < n) (w : List RVal)
    (h : ∀ x ∈ w, x = RVal.fin 0) :
    windowMean n w = RVal.fin 0 := by
  have hna : ¬ (w.any RVal.isNA = true) := by
    rw [List.any_eq_true]
    rintro ⟨x, hx, hbad⟩
    rw [h x hx] at hbad
    simp [RVal.isNA] at hbad
  have hcast : ((n : ℚ)) ≠ 0 := Nat.cast_ne_zero.mpr hn.ne'
  rw [windowMean, if_neg hna, rsum_zero w h]
  simp only [RVal.div]
  rw [if_pos hcast, zero_div]

theorem rsiList_getD_eq (xs : List RVal) (h15 : 15 ≤ xs.length) :
    (rsiList xs).getD (xs.length - 1) RVal.nan
      = RVal.sub (RVal.fin 100) (RVal.div (RVal.fin 100) (RVal.add (RVal.fin 1)
          (RVal.div
            (windowMean 14 (windowVals (gainList xs) (xs.length - 1) 14))
            (windowMean 14 (windowVals (lossList xs) (xs.length - 1) 14))))) := by
  rw [rsiList, getD_map_of_lt _ _ _ RVal.nan RVal.nan (by rw [length_rsList]; omega),
      rsList,
      getD_zipWith _ _ _ _ _ (by rw [length_rollingMean, length_gainList]; omega)
        (by rw [length_rollingMean, length_lossList]; omega),
      rollingMean, rollingMean,
      getD_map_range _ _ _ _ (by rw [length_gainList]; omega),
      getD_map_range _ _ _ _ (by rw [length_lossList]; omega),
      if_neg (show ¬ (xs.length - 1 + 1 < 14) by omega),
      if_neg (show ¬ (xs.length - 1 + 1 < 14) by omega)]

theorem diff_getD (xs : List RVal) (f : Nat → ℚ) (m : Nat)
    (hm1 : 1 ≤ m) (hmn : m < xs.length)
    (ha : xs.getD m RVal.nan = RVal.fin (f m))
    (hb : xs.getD (m - 1) RVal.nan = RVal.fin (f (m - 1))) :
    (diffList xs).getD m RVal.nan = RVal.fin (f m - f (m - 1)) := by
  rw [diffList, getD_map_range _ _ _ _ hmn, if_neg (by omega), ha, hb]
  show RVal.fin (f m + -f (m - 1)) = _
  rw [← sub_eq_add_neg]

theorem rsiList_last_boundary (xs : List RVal) (f : Nat → ℚ)
    (h15 : 15 ≤ xs.length)
    (hf : ∀ i, xs.length - 15 ≤ i → i < xs.length →
        xs.getD i RVal.nan = RVal.fin (f i)) :
    ((∀ i, xs.length - 15 ≤ i → i + 1 < xs.length → f i < f (i + 1)) →
      (rsiList xs).getD (xs.length - 1) RVal.nan = RVal.fin 100) ∧
    ((∀ i, xs.length - 15 ≤ i → i + 1 < xs.length → f (i + 1) < f i) →
      (rsiList xs).getD (xs.length - 1) RVal.nan = RVal.fin 0) := by
  have hdiff : ∀ m, xs.length - 14 ≤ m → m < xs.length →
      (diffList xs).getD m RVal.nan = RVal.fin (f m - f (m - 1)) := by
    intro m hm1 hm2
    exact diff_getD xs f m (by omega) hm2 (hf m (by omega) hm2)
      (hf (m - 1) (by omega) (by omega))
  have hidx : ∀ j, j < 14 → xs.length - 1 + 1 - 14 + j = xs.length - 14 + j := by
    intro j _
    omega
  constructor
  · intro hinc
    have hδ : ∀ j, j < 14 →
        0 < f (xs.length - 14 + j) - f (xs.length - 14 + j - 1) := by
      intro j hj
      have h1 := hinc (xs.length - 14 + j - 1) (by omega) (by omega)
      have heq : xs.length - 14 + j - 1 + 1 = xs.length - 14 + j := by omega
      rw [heq] at h1
      linarith
    have hgain : ∀ x ∈ windowVals (gainList xs) (xs.length - 1) 14,
        ∃ q, x = RVal.fin q ∧ 0 < q := by
      intro x hx
      obtain ⟨j, hj, rfl⟩ := List.mem_map.mp hx
      have hj14 : j < 14 := List.mem_range.mp hj
      rw [hidx j hj14, gainList,
          getD_map_of_lt _ _ _ RVal.nan RVal.nan (by rw [length_diffList]; omega),
          hdiff _ (by omega) (by omega),
          if_pos (by simp [RVal.ltb]; linarith [hδ j hj14])]
      exact ⟨_, rfl, hδ j hj14⟩
    have hloss : ∀ x ∈ windowVals (lossList xs) (xs.length - 1) 14,
        x = RVal.fin 0 := by
      intro x hx
      obtain ⟨j, hj, rfl⟩ := List.mem_map.mp hx
      have hj14 : j < 14 := List.mem_range.mp hj
      rw [hidx j hj14, lossList,
          getD_map_of_lt _ _ _ RVal.nan RVal.nan (by rw [length_diffList]; omega),
          hdiff _ (by omega) (by omega),
          if_neg (by simp [RVal.ltb]; linarith [hδ j hj14])]
      show RVal.fin (-0) = RVal.fin 0
      norm_num
    obtain ⟨g, hsG, hgpos⟩ := windowMean_pos 14 (by omega) _
      (by simp [windowVals]) hgain
    have hsL := windowMean_zero 14 (by omega) _ hloss
    rw [rsiList_getD_eq xs h15, hsG, hsL]
    have h0 : RVal.div (RVal.fin g) (RVal.fin 0) = RVal.pinf := by
      simp only [RVal.div]
      rw [if_neg (by norm_num), if_pos hgpos]
    rw [h0]
    show RVal.fin (100 + -(0 : ℚ)) = RVal.fin 100
    norm_num
  · intro hdec
    have hδ : ∀ j, j < 14 →
        f (xs.length - 14 + j) - f (xs.length - 14 + j - 1) < 0 := by
      intro j hj
      have h1 := hdec (xs.length - 14 + j - 1) (by omega) (by omega)
      have heq : xs.length - 14 + j - 1 + 1 = xs.length - 14 + j := by omega
      rw [heq] at h1
      linarith
    have hgain : ∀ x ∈ windowVals (gainList xs) (xs.length - 1) 14,
        x = RVal.fin 0 := by
      intro x hx
      obtain ⟨j, hj, rfl⟩ := List.mem_map.mp hx
      have hj14 : j < 14 := List.mem_range.mp hj
      rw [hidx j hj14, gainList,
          getD_map_of_lt _ _ _ RVal.nan RVal.nan (by rw [length_diffList]; omega),
          hdiff _ (by omega) (by omega),
          if_neg (by simp [RVal.ltb]; linarith [hδ j hj14])]
    have hloss : ∀ x ∈ windowVals (lossList xs) (xs.length - 1) 14,
        ∃ q, x = RVal.fin q ∧ 0 < q := by
      intro x hx
      obtain ⟨j, hj, rfl⟩ := List.mem_map.mp hx
      have hj14 : j < 14 := List.mem_range.mp hj
      rw [hidx j hj14, lossList,
          getD_map_of_lt _ _ _ RVal.nan RVal.nan (by rw [length_diffList]; omega),
          hdiff _ (by omega) (by omega),
          if_pos (by simp [RVal.ltb]; linarith [hδ j hj14])]
      refine ⟨-(f (xs.length - 14 + j) - f (xs.length - 14 + j - 1)), rfl, ?_⟩
      linarith [hδ j hj14]
    have hsG := windowMean_zero 14 (by omega) _ hgain
    obtain ⟨l, hsL, hlpos⟩ := windowMean_pos 14 (by omega) _
      (by simp [windowVals]) hloss
    rw [rsiList_getD_eq xs h15, hsG, hsL]
    have h0 : RVal.div (RVal.fin 0) (RVal.fin l) = RVal.fin 0 := by
      simp only [RVal.div]
      rw [if_pos hlpos.ne']
      norm_num
    rw [h0]
    have h1 : RVal.add (RVal.fin 1) (RVal.fin 0) = RVal.fin 1 := by
      show RVal.fin (1 + 0) = RVal.fin 1
      norm_num
    rw [h1]
    have h2 : RVal.div (RVal.fin 100) (RVal.fin 1) = RVal.fin 100 := by
      simp only [RVal.div]
      rw [if_pos (by norm_num)]
      norm_num
    rw [h2]
    show RVal.fin (100 + -(100 : ℚ)) = RVal.fin 0
    norm_num

theorem lookup_rsi14 (sq : ℚ → ℚ) (t : String) (bars : List Bar) :
    List.lookup "rsi_14" (featureTable sq t bars) = some (rsiList (closeCol bars)) :=
  rfl

/-- C2: on a feature table built from at least 15 bars whose closes are
finite over the trailing 15-bar window, the last row's `rsi_14` is
exactly 100 when those closes are strictly increasing (the average loss
is zero and the naive division produces `+inf`, which resolves to 100),
and exactly 0 when they are strictly decreasing (the average gain is
zero, so `rs = 0`). -/
theorem C2_rsi14_boundary (sq : ℚ → ℚ) (t : String) (bars : List Bar) (f : Nat → ℚ)
    (h15 : 15 ≤ bars.length)
    (hf : ∀ i, bars.length - 15 ≤ i → i < bars.length →
        (closeCol bars).getD i RVal.nan = RVal.fin (f i)) :
    ((∀ i, bars.length - 15 ≤ i → i + 1 < bars.length → f i < f (i + 1)) →
      (tableCol (featureTable sq t bars) "rsi_14").getD (bars.length - 1) RVal.nan
        = RVal.fin 100) ∧
    ((∀ i, bars.length - 15 ≤ i → i + 1 < bars.length → f (i + 1) < f i) →
      (tableCol (featureTable sq t bars) "rsi_14").getD (bars.length - 1) RVal.nan
        = RVal.fin 0) := by
  have hlen : (closeCol bars).length = bars.length := List.length_map _ _
  have hmain := rsiList_last_boundary (closeCol bars) f (by omega)
    (by rw [hlen]; exact hf)
  rw [hlen] at hmain
  rw [tableCol, lookup_rsi14, Option.getD_some]
  exact hmain

/-- Witness for C2: closes 0, 1, …, 14 give RSI-14 = 100 at the last
row. -/
theorem C2_witness :
    (tableCol (featureTable (fun q => q) "AAPL" wBars) "rsi_14").getD 14 RVal.nan
      = RVal.fin 100 := by
  have hL : wBars.length = 15 := rfl
  have hb : ∀ i, i < 15 → (closeCol wBars).getD i RVal.nan = RVal.fin (i : ℚ) := by
    with_unfolding_all decide
  have hi : ∀ i : ℕ, i < 14 → ((i : ℚ) < ((i + 1 : ℕ) : ℚ)) := by
    with_unfolding_all decide
  have h := (C2_rsi14_boundary (fun q => q) "AAPL" wBars (fun i => (i : ℚ))
      (by rw [hL]) (by rw [hL]; intro i _ hilt; exact hb i hilt)).1
      (by rw [hL]; intro i _ hilt; exact hi i (by omega))
  rw [hL] at h
  exact h
